import Mathlib

/-!
Shallow embedding of `chipper.py` (a tag-routed logging facility) and proofs
about its routing, formatting and writing pipeline.

Conventions of the embedding:
* Python strings are Lean `String`s (in Lean 4.14 a `String` wraps a
  `List Char`, so all string computations reduce in the kernel).
* Python tuples/lists of tags are `List String`.
* Python `str.format` on the templates used here (placeholders `{name}` with
  plain names, no escaped braces, no format specs) is modelled by literal
  placeholder substitution (`substChars` / `subst` below).
* `datetime.date` / `datetime.time` objects are modelled by their observable
  behaviour in the code: the `strftime` method, i.e. a function from a format
  string to a rendered string.
* Exceptions raised by sink writes are modelled explicitly: a write
  environment `writeOk : Sink → Bool` says which sinks fail, and `Target.log`
  returns the performed writes together with the first failing sink, if any
  (the Python `for` loop stops at the first raised exception).
* The external `deconf` library (declarative parameters with type checks and
  defaults, validated at construction) is represented by structures with
  per-field defaults; the one validation hook defined in `chipper.py` itself
  (`Handler.handle_tags`) becomes the explicit constructor `mkHandler`.
-/

namespace Chipper

/-- Python placeholder substitution on character lists: every occurrence of
`pat` in the input is replaced by `repl`, scanning left to right without
overlap (the behaviour of `str.format` for a single `{name}` placeholder).
Structural recursion on a fuel argument so that the kernel can evaluate it;
each step consumes at least one input character, so `fuel = input length`
suffices (`substChars` below). -/
def substCharsFuel (pat repl : List Char) : Nat → List Char → List Char
  | _, [] => []
  | 0, l => l
  | fuel + 1, c :: rest =>
    if pat ≠ [] ∧ pat.isPrefixOf (c :: rest) then
      repl ++ substCharsFuel pat repl fuel ((c :: rest).drop pat.length)
    else
      c :: substCharsFuel pat repl fuel rest

/-- Replace every occurrence of `pat` by `repl`. -/
def substChars (pat repl l : List Char) : List Char :=
  substCharsFuel pat repl l.length l

/-- Substitute the placeholder `{key}` by `val` in template `t`
(models `t.format(key=val)` for the simple templates of `chipper.py`). -/
def subst (t key val : String) : String :=
  ⟨substChars ("\x7b" ++ key ++ "\x7d").data val.data t.data⟩

/-- Python `str.split(sep)` on character lists, fuel-structured like
`substCharsFuel`: split on each non-overlapping occurrence of `sep`,
keeping empty components (so `"_a".split("_") = ["", "a"]`). -/
def splitCharsFuel (sep : List Char) : Nat → List Char → List (List Char)
  | _, [] => [[]]
  | 0, l => [l]
  | fuel + 1, c :: rest =>
    if sep ≠ [] ∧ sep.isPrefixOf (c :: rest) then
      [] :: splitCharsFuel sep fuel ((c :: rest).drop sep.length)
    else
      match splitCharsFuel sep fuel rest with
      | [] => [[c]]
      | g :: gs => (c :: g) :: gs

/-- Python `s.split(sep)`. -/
def pySplit (s sep : String) : List String :=
  (splitCharsFuel sep.data s.data.length s.data).map (fun l => ⟨l⟩)

/-- Python `str.upper()` for the ASCII strings used as tags. -/
def pyUpper (s : String) : String := ⟨s.data.map Char.toUpper⟩

/-- Python `str.strip()`: drop leading and trailing whitespace. -/
def pyStrip (s : String) : String :=
  ⟨((s.data.dropWhile Char.isWhitespace).reverse.dropWhile Char.isWhitespace).reverse⟩

/-- A `datetime.date` as the code observes it: its `strftime` method. -/
structure Date where
  strftime : String → String

/-- A `datetime.time` as the code observes it: its `strftime` method. -/
structure Time where
  strftime : String → String

/-- The trace keyword arguments (`file=`, `line=`, `module=`) threaded from
`Log.log` through `Handler.log` into `Formatter.format_message`; absent
keywords are the empty-string defaults of `format_message`. -/
structure Trace where
  file : String := ""
  line : String := ""
  module : String := ""
deriving DecidableEq, Repr

/-- Model of `Formatter` (`chipper.py` lines 24-148): the declared `deconf` parameters
with their exact default values. -/
structure Formatter where
  template : String := "{datetime}{trace}{tags} :"
  tags_template : String := "[{tags}]"
  tag_template : String := "{tag}"
  tag_formatter : String → String := fun tag => pyStrip (pyUpper tag)
  tag_delimiter : String := ", "
  date_template : String := "{date}"
  date_format : String := "%Y-%m-%d"
  time_template : String := "{time}"
  time_format : String := "%H:%M:%S"
  datetime_template : String := "[{date} {time}]"
  file_template : String := "{file}"
  line_template : String := ":{line}"
  module_template : String := ":{module}"
  trace_template : String := "[{file}{line}]"

/-- The tag-rendering pipeline of `Formatter.format_message`
(lines 156-159): transform each tag, render it through `tag_template`,
join with `tag_delimiter`, wrap in `tags_template`. -/
def Formatter.renderTags (f : Formatter) (tags : List String) : String :=
  let ts := tags.map f.tag_formatter
  let ts := ts.map (fun t => subst f.tag_template "tag" t)
  let joined := String.intercalate f.tag_delimiter ts
  subst f.tags_template "tags" joined

/-- Model of `Formatter.format_message` (lines 151-181). The final line of the source
is `return self.template.format(handler=..., tags=..., datetime=..., trace=...)
+ message`. -/
def Formatter.format_message (f : Formatter) (message : String)
    (handlerName : String) (tags : List String) (date : Date) (time : Time)
    (tr : Trace := {}) : String :=
  let tagsStr := f.renderTags tags
  let dateStr := subst f.date_template "date" (date.strftime f.date_format)
  let timeStr := subst f.time_template "time" (time.strftime f.time_format)
  let datetimeStr :=
    subst (subst f.datetime_template "date" dateStr) "time" timeStr
  let traceStr :=
    if tr.file ≠ "" ∨ tr.line ≠ "" ∨ tr.module ≠ "" then
      let fileStr := subst f.file_template "file" tr.file
      let lineStr := subst f.line_template "line" tr.line
      let moduleStr := subst f.module_template "module" tr.module
      subst (subst (subst f.trace_template "file" fileStr)
        "line" lineStr) "module" moduleStr
    else ""
  (subst (subst (subst (subst f.template "handler" handlerName)
    "tags" tagsStr) "datetime" datetimeStr) "trace" traceStr) ++ message

/-- A concrete writable sink resolved by a `Target` at construction. -/
inductive Sink where
  | file (filename : String)
  | stdout
  | stderr
deriving DecidableEq, Repr

/-- Model of `Target` (lines 183-227): the declared `deconf` parameters with their
exact defaults. -/
structure Target where
  filename : String := ""
  stdout : Bool := false
  stderr : Bool := false
deriving DecidableEq, Repr

/-- The ordered sink list built by `Target.__init__` (lines 215-223): the
opened file if a filename was given, then stdout if flagged, then stderr if
flagged. -/
def Target.targets (t : Target) : List Sink :=
  (if t.filename ≠ "" then [Sink.file t.filename] else []) ++
  (if t.stdout then [Sink.stdout] else []) ++
  (if t.stderr then [Sink.stderr] else [])

/-- The `for target in self.targets: target.write(message)` loop of
`Target.log` (lines 225-227) under write environment `wOk`. Returns the
writes performed, in order, and the first sink whose `write` raised, if any;
the raised exception aborts the loop, so no later sink is reached. -/
def writeAll (wOk : Sink → Bool) (message : String) :
    List Sink → List (Sink × String) × Option Sink
  | [] => ([], none)
  | s :: rest =>
    if wOk s then
      let r := writeAll wOk message rest
      ((s, message) :: r.1, r.2)
    else
      ([], some s)

/-- Model of `Target.log` (lines 225-227). -/
def Target.log (wOk : Sink → Bool) (t : Target) (message : String) :
    List (Sink × String) × Option Sink :=
  writeAll wOk message t.targets

/-- The sinks on which a `write` call was attempted during `Target.log`:
the successful writes plus the sink whose write raised (its `write` was
called, even though it failed). -/
def attemptedSinks (r : List (Sink × String) × Option Sink) : List Sink :=
  r.1.map Prod.fst ++ (match r.2 with | some s => [s] | none => [])

/-- Model of `Handler` (lines 230-276): name, tags, target and formatter fields. -/
structure Handler where
  name : String
  tags : List String
  target : Target
  formatter : Formatter := {}

/-- Handler construction through `deconf`. Modelled from the spec: the
external `deconf.Deconfigurable` machinery (not in this repository) invokes
each declared parameter's handler once at construction with the supplied or
default value, and a handler raising `ParameterValueError` fails the
construction. The empty-tags check itself is `Handler.handle_tags`
(`chipper.py` lines 246-256). -/
def mkHandler (name : String) (tags : List String) (target : Target)
    (formatter : Formatter := {}) : Except String Handler :=
  if tags.length = 0 then
    Except.error "Handler 'tags' list must contain at least one tagname"
  else
    Except.ok { name := name, tags := tags, target := target,
                formatter := formatter }

/-- The string `Handler.log` (lines 274-276) passes to `Target.log`:
the formatted message with `"\n"` appended. -/
def Handler.sinkText (h : Handler) (message : String) (tags : List String)
    (date : Date) (time : Time) (tr : Trace := {}) : String :=
  h.formatter.format_message message h.name tags date time tr ++ "\n"

/-- Model of `Handler.log` (lines 274-276) under write environment `wOk`. -/
def Handler.log (wOk : Sink → Bool) (h : Handler) (message : String)
    (tags : List String) (date : Date) (time : Time) (tr : Trace := {}) :
    List (Sink × String) × Option Sink :=
  Target.log wOk h.target (h.sinkText message tags date time tr)

/-- The module-level `default_handler` (lines 278-285). -/
def default_handler : Handler :=
  { name := "default"
    tags := ["*"]
    target := { stdout := true }
    formatter := { template := "{trace}{tags}:" } }

/-!
## The Router (`Log`, lines 312-386)

`Log.log` builds a Python `dict` mapping handler objects to the list of tags
they matched. Distinct entries of `self.__handlers` are distinct Python
objects (dict keys compare by identity for `Deconfigurable`), so the dict is
modelled as an insertion-ordered association list keyed by the handler's
position in the handler list. Dispatch is described by the list of `Handler.log`
invocations the routing loop performs (exception-free execution; write
failures are modelled at the `Target` level).
-/

/-- Model of `taglist = handlers.get(handler, []); taglist.append(tag);
handlers[handler] = taglist` on an insertion-ordered dict keyed by handler
index: append `t` to the entry of key `k`, inserting the key at the end if
absent. -/
def dictAdd (k : Nat) (t : String) :
    List (Nat × List String) → List (Nat × List String)
  | [] => [(k, [t])]
  | (k', l) :: rest =>
    if k' = k then (k', l ++ [t]) :: rest else (k', l) :: dictAdd k t rest

/-- First value stored under key `k`, if any. -/
def dictGet (k : Nat) : List (Nat × List String) → Option (List String)
  | [] => none
  | (k', l) :: rest => if k' = k then some l else dictGet k rest

/-- The inner loop of `Log.log` (lines 367-373) for one tag: scan the
indexed handler sequence in order; on each handler whose tag tuple contains
the tag, append the tag to that handler's dict entry and set `found`. -/
def scanTag (tag : String) (d : List (Nat × List String)) (found : Bool) :
    List (Nat × Handler) → List (Nat × List String) × Bool
  | [] => (d, found)
  | (i, h) :: rest =>
    if h.tags.contains tag then scanTag tag (dictAdd i tag d) true rest
    else scanTag tag d found rest

/-- The outer loop of `Log.log` (lines 366-375): fold the call's tags,
accumulating the handler dict and the unhandled list. -/
def routeAux (pairs : List (Nat × Handler)) :
    List String → List (Nat × List String) → List String →
    List (Nat × List String) × List String
  | [], d, u => (d, u)
  | t :: ts, d, u =>
    let r := scanTag t d false pairs
    routeAux pairs ts r.1 (if r.2 then u else u ++ [t])

/-- The routing computation of `Log.log`: handler dict (insertion-ordered,
keyed by handler index) and unhandled tag list. -/
def route (hs : List Handler) (tags : List String) :
    List (Nat × List String) × List String :=
  routeAux hs.enum tags [] []

/-- One invocation of `Handler.log` performed by `Log.log`:
`handlerIdx = some i` for the configured handler at position `i`,
`none` for the default handler. Matched handlers are called without trace
keywords (line 377); the default call forwards `**trace` (line 379). -/
structure HandlerCall where
  handlerIdx : Option Nat
  message : String
  tags : List String
  trace : Trace
deriving DecidableEq, Repr

/-- Model of `Log` (lines 312-342): ordered handler sequence and the default handler
(`__init__` defaults: no handlers, `default_handler`). -/
structure Log where
  handlers : List Handler := []
  default : Handler := default_handler

/-- Model of `Log.log` (lines 355-379) as the sequence of `Handler.log` invocations it
performs: one per dict entry in dict order (line 376-377, without trace),
then one on the default handler with the unhandled tags and the trace
keywords, only if the unhandled list is non-empty (lines 378-379). -/
def Log.log (l : Log) (message : String) (tags : List String)
    (tr : Trace := {}) : List HandlerCall :=
  (route l.handlers tags).1.map (fun p => ⟨some p.1, message, p.2, {}⟩) ++
    (if (route l.handlers tags).2.length ≠ 0 then
      [⟨none, message, (route l.handlers tags).2, tr⟩]
    else [])

/-- Model of `Log.__getattr__` (lines 381-386) for a name not otherwise defined:
the tag tuple is the name split on `"_"` with empty components dropped
(`[t for t in name.split("_") if t]`). -/
def getattrTags (name : String) : List String :=
  (pySplit name "_").filter (fun t => t ≠ "")

/-- What `TaggedLog.__call__` observes of the runtime when `"trace"` is among
its tags: the `traceback.extract_stack()[-2]` fields and the
`traceback.format_exc()` text. -/
structure StackInfo where
  file : String
  line : String
  module : String
  errorText : String

/-- Model of `TaggedLog.__call__` (lines 298-308): if `"trace"` is among the bound
tags, extract stack info, append the active traceback text to the message
when one exists, and call `Log.log` with `file=`, `line=`, `module=`
keywords; otherwise call `Log.log` with the message and tags alone. -/
def TaggedLog.call (l : Log) (tags : List String) (message : String)
    (si : StackInfo) : List HandlerCall :=
  if tags.contains "trace" then
    let message :=
      if si.errorText ≠ "None\n" then message ++ "\n" ++ si.errorText
      else message
    Log.log l message tags ⟨si.file, si.line, si.module⟩
  else
    Log.log l message tags {}

/-!
## Auxiliary observation functions used by the theorems
-/

/-- Whether at least one handler of `hs` listens for tag `t`. -/
def matchesSome (hs : List Handler) (t : String) : Bool :=
  hs.any (fun h => h.tags.contains t)

/-- Number of consecutive `'\n'` characters at the end of a string. -/
def trailingNewlines (s : String) : Nat :=
  (s.data.reverse.takeWhile (fun c => c == '\n')).length

/-- The keys of the handler dict, in insertion order. -/
def dictKeys (d : List (Nat × List String)) : List Nat := d.map Prod.fst

/-- Spec combinator for the handler-dict content: appending a batch of
matched tags to an optional existing entry, creating the entry only when
something is appended. -/
def optAppend : Option (List String) → List String → Option (List String)
  | some l, ts => some (l ++ ts)
  | none, ts => if ts.isEmpty then none else some ts

/-- A concrete `datetime.date` for closed evaluations. -/
def sampleDate : Date := ⟨fun _ => "2024-01-01"⟩

/-- A concrete `datetime.time` for closed evaluations. -/
def sampleTime : Time := ⟨fun _ => "12:00:00"⟩

/-!
## Helper lemmas
-/

theorem trailingNewlines_append_newline (s : String) :
    trailingNewlines (s ++ "\n") = trailingNewlines s + 1 := by
  have hdata : ("\n" : String).data = ['\n'] := rfl
  simp [trailingNewlines, String.data_append, hdata, List.takeWhile_cons]

theorem writeAll_eq (wOk : Sink → Bool) (m : String) :
    ∀ sinks : List Sink,
      writeAll wOk m sinks =
        ((sinks.takeWhile wOk).map (fun s => (s, m)),
         (sinks.dropWhile wOk).head?)
  | [] => rfl
  | s :: rest => by
    cases h : wOk s <;>
      simp [writeAll, List.takeWhile_cons, List.dropWhile_cons, h,
        writeAll_eq wOk m rest]

theorem dictGet_dictAdd_self (k : Nat) (t : String) :
    ∀ d, dictGet k (dictAdd k t d) = some ((dictGet k d).getD [] ++ [t])
  | [] => by simp [dictAdd, dictGet]
  | (k', l) :: rest => by
    by_cases hk : k' = k
    · subst hk
      simp [dictAdd, dictGet]
    · simp [dictAdd, dictGet, hk, dictGet_dictAdd_self k t rest]

theorem dictGet_dictAdd_other {k k' : Nat} (t : String) (hne : k' ≠ k) :
    ∀ d, dictGet k (dictAdd k' t d) = dictGet k d
  | [] => by simp [dictAdd, dictGet, hne]
  | (k'', l) :: rest => by
    by_cases hk : k'' = k'
    · subst hk
      simp [dictAdd, dictGet, hne]
    · simp [dictAdd, dictGet, hk, dictGet_dictAdd_other t hne rest]

theorem scanTag_found (t : String) :
    ∀ (pairs : List (Nat × Handler)) (d : List (Nat × List String)) (f : Bool),
      (scanTag t d f pairs).2 = (f || pairs.any (fun p => p.2.tags.contains t))
  | [], d, f => by simp [scanTag]
  | (i, h) :: rest, d, f => by
    rw [scanTag]
    cases hc : h.tags.contains t with
    | true =>
      rw [if_pos rfl, scanTag_found t rest, List.any_cons]
      simp only [hc, Bool.true_or, Bool.or_true]
    | false =>
      rw [if_neg Bool.false_ne_true, scanTag_found t rest, List.any_cons]
      simp only [hc, Bool.false_or]

theorem scanTag_get_absent (t : String) (k : Nat) :
    ∀ (pairs : List (Nat × Handler)) (d : List (Nat × List String)) (f : Bool),
      (∀ p ∈ pairs, p.1 ≠ k) →
      dictGet k (scanTag t d f pairs).1 = dictGet k d
  | [], d, f, _ => rfl
  | (i, h) :: rest, d, f, habs => by
    have hi : i ≠ k := habs (i, h) (by simp)
    have hrest : ∀ p ∈ rest, p.1 ≠ k := fun p hp => habs p (by simp [hp])
    by_cases hc : h.tags.contains t
    · rw [scanTag, if_pos hc, scanTag_get_absent t k rest _ _ hrest,
        dictGet_dictAdd_other t hi]
    · rw [scanTag, if_neg hc, scanTag_get_absent t k rest _ _ hrest]

theorem scanTag_get (t : String) (k : Nat) (h : Handler) :
    ∀ (pairs : List (Nat × Handler)) (d : List (Nat × List String)) (f : Bool),
      (k, h) ∈ pairs → (pairs.map Prod.fst).count k = 1 →
      dictGet k (scanTag t d f pairs).1 =
        if h.tags.contains t then some ((dictGet k d).getD [] ++ [t])
        else dictGet k d
  | [], _, _, hmem, _ => absurd hmem (List.not_mem_nil _)
  | (i, h') :: rest, d, f, hmem, hcount => by
    by_cases hik : i = k
    · subst hik
      have hrest0 : (rest.map Prod.fst).count i = 0 := by
        have := hcount
        simp [List.count_cons] at this
        omega
      have habs : ∀ p ∈ rest, p.1 ≠ i := by
        intro p hp hpk
        have : i ∈ rest.map Prod.fst := hpk ▸ List.mem_map_of_mem Prod.fst hp
        rw [← List.count_pos_iff] at this
        omega
      have hh : h' = h := by
        rcases List.mem_cons.mp hmem with heq | hmem'
        · exact (Prod.mk.injEq _ _ _ _ ▸ heq.symm).2
        · exact absurd rfl (habs (i, h) hmem')
      subst hh
      by_cases hc : h'.tags.contains t
      · rw [scanTag, if_pos hc, scanTag_get_absent t i rest _ _ habs,
          dictGet_dictAdd_self, if_pos hc]
      · rw [scanTag, if_neg hc, scanTag_get_absent t i rest _ _ habs,
          if_neg hc]
    · have hmem' : (k, h) ∈ rest := by
        rcases List.mem_cons.mp hmem with heq | hmem'
        · exact absurd (congrArg Prod.fst heq.symm) hik
        · exact hmem'
      have hcount' : (rest.map Prod.fst).count k = 1 := by
        have := hcount
        simp [List.count_cons, hik] at this
        simpa using this
      by_cases hc : h'.tags.contains t
      · rw [scanTag, if_pos hc,
          scanTag_get t k h rest _ _ hmem' hcount',
          dictGet_dictAdd_other t hik]
      · rw [scanTag, if_neg hc, scanTag_get t k h rest _ _ hmem' hcount']

theorem optAppend_nil (o : Option (List String)) : optAppend o [] = o := by
  cases o <;> simp [optAppend]

theorem routeAux_unhandled (pairs : List (Nat × Handler)) :
    ∀ (ts : List String) (d : List (Nat × List String)) (u : List String),
      (routeAux pairs ts d u).2 =
        u ++ ts.filter (fun t => !(pairs.any (fun p => p.2.tags.contains t)))
  | [], d, u => by simp [routeAux]
  | t :: ts, d, u => by
    rw [routeAux, routeAux_unhandled pairs ts, scanTag_found t pairs d false,
      Bool.false_or, List.filter_cons]
    cases hm : pairs.any (fun p => p.2.tags.contains t) with
    | true => simp
    | false => simp [List.append_assoc]

theorem routeAux_get (pairs : List (Nat × Handler)) (k : Nat) (h : Handler)
    (hmem : (k, h) ∈ pairs) (hcount : (pairs.map Prod.fst).count k = 1) :
    ∀ (ts : List String) (d : List (Nat × List String)) (u : List String),
      dictGet k (routeAux pairs ts d u).1 =
        optAppend (dictGet k d) (ts.filter (fun t => h.tags.contains t))
  | [], d, u => by simp [routeAux, optAppend_nil]
  | t :: ts, d, u => by
    rw [routeAux, routeAux_get pairs k h hmem hcount ts]
    rw [scanTag_get t k h pairs d false hmem hcount]
    by_cases hc : h.tags.contains t
    · rw [if_pos hc, List.filter_cons, if_pos (by simpa using hc)]
      cases hd : dictGet k d with
      | none => simp [optAppend]
      | some l => simp [optAppend]
    · rw [if_neg hc, List.filter_cons, if_neg (by simpa using hc)]

theorem dictKeys_cons (k' : Nat) (l : List String)
    (rest : List (Nat × List String)) :
    dictKeys ((k', l) :: rest) = k' :: dictKeys rest := rfl

theorem dictKeys_dictAdd (k : Nat) (t : String) :
    ∀ d, dictKeys (dictAdd k t d) =
      if k ∈ dictKeys d then dictKeys d else dictKeys d ++ [k]
  | [] => by simp [dictAdd, dictKeys]
  | (k', l) :: rest => by
    by_cases hk : k' = k
    · subst hk
      simp [dictAdd, dictKeys_cons]
    · have hne : k ≠ k' := fun hkk => hk hkk.symm
      simp only [dictAdd, if_neg hk, dictKeys_cons, dictKeys_dictAdd k t rest]
      by_cases hmem : k ∈ dictKeys rest
      · rw [if_pos hmem, if_pos (List.mem_cons_of_mem k' hmem)]
      · rw [if_neg hmem, if_neg (by simp [List.mem_cons, hne, hmem]),
          List.cons_append]

theorem nodup_dictAdd (k : Nat) (t : String) (d : List (Nat × List String))
    (hd : (dictKeys d).Nodup) : (dictKeys (dictAdd k t d)).Nodup := by
  rw [dictKeys_dictAdd]
  by_cases hmem : k ∈ dictKeys d
  · simpa [hmem] using hd
  · simpa [hmem, List.nodup_append] using hd

theorem nodup_scanTag (t : String) :
    ∀ (pairs : List (Nat × Handler)) (d : List (Nat × List String)) (f : Bool),
      (dictKeys d).Nodup → (dictKeys (scanTag t d f pairs).1).Nodup
  | [], d, f, hd => hd
  | (i, h) :: rest, d, f, hd => by
    by_cases hc : h.tags.contains t
    · rw [scanTag, if_pos hc]
      exact nodup_scanTag t rest _ _ (nodup_dictAdd i t d hd)
    · rw [scanTag, if_neg hc]
      exact nodup_scanTag t rest _ _ hd

theorem nodup_routeAux (pairs : List (Nat × Handler)) :
    ∀ (ts : List String) (d : List (Nat × List String)) (u : List String),
      (dictKeys d).Nodup → (dictKeys (routeAux pairs ts d u).1).Nodup
  | [], d, u, hd => hd
  | t :: ts, d, u, hd =>
    nodup_routeAux pairs ts _ _ (nodup_scanTag t pairs d false hd)

theorem nodup_route (hs : List Handler) (tags : List String) :
    (dictKeys (route hs tags).1).Nodup :=
  nodup_routeAux hs.enum tags [] [] List.nodup_nil

theorem filter_key_of_nodup (k : Nat) :
    ∀ d : List (Nat × List String), (dictKeys d).Nodup →
      d.filter (fun p => p.1 = k) =
        (match dictGet k d with
          | none => []
          | some l => [(k, l)])
  | [], _ => rfl
  | (k', l) :: rest, hd => by
    rw [dictKeys_cons] at hd
    have hrest : (dictKeys rest).Nodup := (List.nodup_cons.mp hd).2
    by_cases hk : k' = k
    · subst hk
      have habs : ∀ p ∈ rest, p.1 ≠ k' := by
        intro p hp hpk
        apply (List.nodup_cons.mp hd).1
        rw [← hpk]
        exact List.mem_map_of_mem Prod.fst hp
      have hfil : rest.filter (fun p => decide (p.1 = k')) = [] := by
        rw [List.filter_eq_nil_iff]
        intro p hp
        simpa using habs p hp
      have hget : dictGet k' rest = none := by
        clear hd hrest hfil
        induction rest with
        | nil => rfl
        | cons q qs ih =>
          rw [dictGet, if_neg (habs q (by simp))]
          exact ih (fun p hp => habs p (by simp [hp]))
      simp [List.filter_cons, dictGet, hfil, hget]
    · simp [List.filter_cons, dictGet, hk, filter_key_of_nodup k rest hrest]

theorem enumFrom_any_tags (t : String) :
    ∀ (n : Nat) (hs : List Handler),
      (List.enumFrom n hs).any (fun p => p.2.tags.contains t) =
        hs.any (fun h => h.tags.contains t)
  | _, [] => rfl
  | n, h :: rest => by
    show ((n, h) :: List.enumFrom (n + 1) rest).any
      (fun p => p.2.tags.contains t) = _
    rw [List.any_cons, List.any_cons, enumFrom_any_tags t (n + 1) rest]

theorem route_unhandled (hs : List Handler) (tags : List String) :
    (route hs tags).2 = tags.filter (fun t => !matchesSome hs t) := by
  rw [route, routeAux_unhandled, List.nil_append]
  apply List.filter_congr
  intro t _
  rw [matchesSome, List.enum, enumFrom_any_tags t 0 hs]

theorem route_get (hs : List Handler) (tags : List String) (i : Nat)
    (hi : i < hs.length) :
    dictGet i (route hs tags).1 =
      (if (tags.filter (fun t => (hs.get ⟨i, hi⟩).tags.contains t)).isEmpty
       then none
       else some (tags.filter (fun t => (hs.get ⟨i, hi⟩).tags.contains t))) := by
  have hmem : (i, hs.get ⟨i, hi⟩) ∈ hs.enum := by
    rw [List.mk_mem_enum_iff_getElem?]
    simp [List.getElem?_eq_getElem hi]
  have hcount : (hs.enum.map Prod.fst).count i = 1 := by
    rw [List.enum_map_fst]
    exact List.count_eq_one_of_mem (List.nodup_range _) (List.mem_range.mpr hi)
  rw [route, routeAux_get hs.enum i (hs.get ⟨i, hi⟩) hmem hcount tags [] []]
  rfl

/-!
## Claims C3, C4, C5, C7, C8, C9
-/

/-- C3 (counterexample): the claim "the text `Handler.log` passes to
`Target.log` always ends with exactly one trailing newline" fails when the
message itself ends with a newline: for message `"hi\n"` under the default
formatter the sink text ends with two newlines. -/
theorem sink_text_double_newline_counterexample :
    trailingNewlines (Handler.sinkText ⟨"h", ["info"], {}, {}⟩ "hi\n"
      ["info"] sampleDate sampleTime {}) = 2 := by decide

/-- C3 (amended): `Handler.log` appends exactly one `"\n"` to the formatted
message, so the text passed to `Target.log` always ends with at least one
newline, and with exactly one precisely when the formatted message (template
rendering plus raw message) does not itself already end with a newline. -/
theorem sink_text_newline_append (h : Handler) (m : String)
    (tags : List String) (d : Date) (t : Time) (tr : Trace) :
    Handler.sinkText h m tags d t tr =
      h.formatter.format_message m h.name tags d t tr ++ "\n" ∧
    1 ≤ trailingNewlines (Handler.sinkText h m tags d t tr) ∧
    (trailingNewlines (Handler.sinkText h m tags d t tr) = 1 ↔
      trailingNewlines (h.formatter.format_message m h.name tags d t tr) = 0) := by
  refine ⟨rfl, ?_, ?_⟩ <;>
    · rw [Handler.sinkText, trailingNewlines_append_newline]
      omega

/-- C4 (counterexample): the claim "if writing to one sink fails, writes are
still attempted to every remaining sink" fails: on a Target with sinks
`[stdout, stderr]` where the stdout write raises, the loop aborts and the
stderr write is never attempted. -/
theorem failed_sink_aborts_counterexample :
    2 ≤ (Target.targets { stdout := true, stderr := true }).length ∧
    (Target.log (fun s => !(s == Sink.stdout))
        { stdout := true, stderr := true } "m").2 = some Sink.stdout ∧
    Sink.stderr ∈ Target.targets { stdout := true, stderr := true } ∧
    Sink.stderr ∉ attemptedSinks (Target.log (fun s => !(s == Sink.stdout))
        { stdout := true, stderr := true } "m") := by decide

/-- C4 (amended): a sink write failure aborts the per-sink loop of
`Target.log`: the message is written to the longest prefix of sinks whose
writes succeed, the exception propagates from the first failing sink, and no
later sink's write is attempted. -/
theorem target_log_stops_at_first_failure (wOk : Sink → Bool) (t : Target)
    (m : String) :
    Target.log wOk t m =
      ((t.targets.takeWhile wOk).map (fun s => (s, m)),
       (t.targets.dropWhile wOk).head?) :=
  writeAll_eq wOk m t.targets

/-- C5 (confirmed): constructing a `Handler` with an empty tags collection
fails construction with the descriptive `ParameterValueError` message of
`Handler.handle_tags`; it never yields a `Handler`. -/
theorem empty_tags_construction_fails (name : String) (t : Target)
    (f : Formatter) :
    mkHandler name [] t f =
      Except.error "Handler 'tags' list must contain at least one tagname" ∧
    ∀ h : Handler, mkHandler name [] t f ≠ Except.ok h := by
  refine ⟨rfl, fun h => ?_⟩
  simp [mkHandler]

/-- C7 (confirmed): when every resolved sink's write succeeds, `Target.log`
writes the identical message text, unmodified, once to every resolved sink in
attachment order; and a Target with `stdout=true`, `stderr=true` and no
filename resolves to `[stdout, stderr]` (the same text to both streams in
that order, and to no file). -/
theorem target_writes_same_text_in_order (t : Target) (wOk : Sink → Bool)
    (m : String) (h : ∀ s ∈ t.targets, wOk s = true) :
    Target.log wOk t m = (t.targets.map (fun s => (s, m)), none) ∧
    Target.targets { filename := "", stdout := true, stderr := true } =
      [Sink.stdout, Sink.stderr] := by
  refine ⟨?_, by decide⟩
  rw [Target.log, writeAll_eq, List.takeWhile_eq_self_iff.mpr h,
    List.dropWhile_eq_nil_iff.mpr (fun s hs => by simp [h s hs]),
    List.head?_nil]

/-- C7 (witness). -/
theorem target_writes_same_text_in_order_witness :
    Target.log (fun _ => true) { stdout := true, stderr := true } "x" =
      ([(Sink.stdout, "x"), (Sink.stderr, "x")], none) ∧
    Target.targets { filename := "", stdout := true, stderr := true } =
      [Sink.stdout, Sink.stderr] := by
  have h := target_writes_same_text_in_order
    { stdout := true, stderr := true } (fun _ => true) "x" (by decide)
  exact ⟨h.1.trans (by decide), h.2⟩

/-- C8 (confirmed): the default Formatter configuration renders the tag tuple
`("info", "general")` as the uppercased, comma-space-joined string wrapped in
the default tags-template, `"[INFO, GENERAL]"`, and that block appears in the
formatted output. -/
theorem default_formatter_tags_rendering :
    Formatter.renderTags {} ["info", "general"] = "[INFO, GENERAL]" ∧
    Formatter.format_message {} "hello" "errs" ["info", "general"]
      sampleDate sampleTime {} =
      "[2024-01-01 12:00:00][INFO, GENERAL] :hello" ∧
    List.IsInfix "[INFO, GENERAL]".data
      (Formatter.format_message {} "hello" "errs" ["info", "general"]
        sampleDate sampleTime {}).data := by decide

/-- C9 (confirmed): a `Target` with empty filename, `stdout=false`,
`stderr=false` is accepted at construction, resolves to zero sinks, and
every `log` call on it performs no write and raises no error. -/
theorem degenerate_target_drops_writes (wOk : Sink → Bool) (m : String) :
    Target.targets { filename := "", stdout := false, stderr := false } = [] ∧
    Target.log wOk { filename := "", stdout := false, stderr := false } m =
      ([], none) :=
  ⟨rfl, rfl⟩

/-!
## Claims C1, C2, C10, C6
-/

/-- C1 (confirmed): for the handler at position `i` of the configured
sequence, with tag tuple `T`: `Handler.log` is invoked on it exactly once if
at least one call tag is a member of `T`, not at all otherwise, and the tags
it receives are exactly the call tags that are members of `T` (in call
order), by literal membership. -/
theorem matched_handler_receives_exactly_intersection
    (l : Log) (m : String) (tags : List String) (tr : Trace)
    (i : Nat) (hi : i < l.handlers.length) :
    (Log.log l m tags tr).filter (fun c => c.handlerIdx = some i) =
      (if tags.any (fun t => (l.handlers.get ⟨i, hi⟩).tags.contains t) then
        [⟨some i, m,
          tags.filter (fun t => (l.handlers.get ⟨i, hi⟩).tags.contains t), {}⟩]
      else []) := by
  rw [Log.log, List.filter_append]
  have hifpart :
      (if (route l.handlers tags).2.length ≠ 0 then
        [(⟨none, m, (route l.handlers tags).2, tr⟩ : HandlerCall)]
      else []).filter (fun c => decide (c.handlerIdx = some i)) = [] := by
    split <;> simp
  rw [hifpart, List.append_nil, List.filter_map]
  have hcongr : (route l.handlers tags).1.filter
        ((fun c => decide (c.handlerIdx = some i)) ∘
          (fun p => (⟨some p.1, m, p.2, {}⟩ : HandlerCall))) =
      (route l.handlers tags).1.filter (fun p => decide (p.1 = i)) := by
    apply List.filter_congr
    intro p _
    simp
  rw [hcongr, filter_key_of_nodup i _ (nodup_route l.handlers tags),
    route_get l.handlers tags i hi]
  cases hany : tags.any (fun t => (l.handlers.get ⟨i, hi⟩).tags.contains t) with
  | true =>
    have hne : tags.filter
        (fun t => (l.handlers.get ⟨i, hi⟩).tags.contains t) ≠ [] := by
      obtain ⟨x, hx, hpx⟩ := List.any_eq_true.mp hany
      intro hnil
      have := List.filter_eq_nil_iff.mp hnil x hx
      simp_all
    rw [if_neg (by simpa [List.isEmpty_iff] using hne)]
    rfl
  | false =>
    have hall : ∀ x ∈ tags, x ∉ (l.handlers.get ⟨i, hi⟩).tags := by
      simpa [List.any_eq_false] using hany
    have hnil : tags.filter
        (fun t => (l.handlers.get ⟨i, hi⟩).tags.contains t) = [] :=
      List.filter_eq_nil_iff.mpr (fun x hx => by simpa using hall x hx)
    rw [if_pos (by rw [hnil]; rfl)]
    rfl

/-- C1 (witness): a router with one handler `errs` listening on `("error",)`
receives exactly `["error"]` from the call `log("boom", "error", "db")`. -/
theorem matched_handler_receives_exactly_intersection_witness :
    (Log.log (⟨[⟨"errs", ["error"], {}, {}⟩], default_handler⟩ : Log)
        "boom" ["error", "db"] {}).filter
      (fun c => c.handlerIdx = some 0) =
      [⟨some 0, "boom", ["error"], {}⟩] := by
  have h := matched_handler_receives_exactly_intersection
    (⟨[⟨"errs", ["error"], {}, {}⟩], default_handler⟩ : Log)
    "boom" ["error", "db"] {} 0 (by decide)
  exact h.trans (by decide)

/-- C2 (confirmed): the default handler's `log` is invoked exactly once if at
least one call tag matches zero configured handlers, receiving exactly the
unmatched tags; it is not invoked at all when every call tag matches some
configured handler. -/
theorem default_receives_exactly_unmatched (l : Log) (m : String)
    (tags : List String) (tr : Trace) :
    (Log.log l m tags tr).filter (fun c => c.handlerIdx = none) =
      (if tags.filter (fun t => !matchesSome l.handlers t) = [] then []
       else [⟨none, m, tags.filter (fun t => !matchesSome l.handlers t), tr⟩]) := by
  rw [Log.log, List.filter_append]
  have hmap : ((route l.handlers tags).1.map
        (fun p => (⟨some p.1, m, p.2, {}⟩ : HandlerCall))).filter
      (fun c => decide (c.handlerIdx = none)) = [] := by
    rw [List.filter_eq_nil_iff]
    intro c hc
    obtain ⟨p, _, rfl⟩ := List.mem_map.mp hc
    simp
  rw [hmap, List.nil_append, route_unhandled]
  by_cases hu : tags.filter (fun t => !matchesSome l.handlers t) = []
  · rw [if_pos hu, hu]
    simp
  · rw [if_neg hu,
      if_pos (by simpa [List.length_eq_zero] using hu)]
    simp

/-- C10 (confirmed): trace keyword fields are forwarded only to the default
handler and only when at least one tag is unmatched; every invocation of a
matched configured handler carries empty trace fields (the trace keywords are
silently dropped on that path). -/
theorem trace_only_to_default (l : Log) (m : String) (tags : List String)
    (tr : Trace) :
    (∀ c ∈ Log.log l m tags tr, c.handlerIdx ≠ none → c.trace = {}) ∧
    (∀ c ∈ Log.log l m tags tr, c.handlerIdx = none →
      c.trace = tr ∧
      c.tags = tags.filter (fun t => !matchesSome l.handlers t)) ∧
    ((∃ c ∈ Log.log l m tags tr, c.handlerIdx = none) ↔
      tags.filter (fun t => !matchesSome l.handlers t) ≠ []) := by
  have hunh := route_unhandled l.handlers tags
  refine ⟨?_, ?_, ?_⟩
  · intro c hc hne
    rw [Log.log] at hc
    rcases List.mem_append.mp hc with hmem | hmem
    · obtain ⟨p, _, rfl⟩ := List.mem_map.mp hmem
      rfl
    · split at hmem
      · rw [List.mem_singleton] at hmem
        subst hmem
        exact absurd rfl hne
      · exact absurd hmem (List.not_mem_nil c)
  · intro c hc hnone
    rw [Log.log] at hc
    rcases List.mem_append.mp hc with hmem | hmem
    · obtain ⟨p, _, rfl⟩ := List.mem_map.mp hmem
      simp at hnone
    · split at hmem
      · rw [List.mem_singleton] at hmem
        subst hmem
        exact ⟨rfl, hunh⟩
      · exact absurd hmem (List.not_mem_nil c)
  · constructor
    · rintro ⟨c, hc, hnone⟩
      rw [Log.log] at hc
      rcases List.mem_append.mp hc with hmem | hmem
      · obtain ⟨p, _, rfl⟩ := List.mem_map.mp hmem
        simp at hnone
      · intro hnil
        rw [hunh, hnil] at hmem
        simp at hmem
    · intro hne
      refine ⟨⟨none, m, (route l.handlers tags).2, tr⟩, ?_, rfl⟩
      rw [Log.log]
      refine List.mem_append.mpr (Or.inr ?_)
      rw [if_pos (by simp [hunh, List.length_eq_zero, hne])]
      exact List.mem_singleton.mpr rfl

/-- C6 (counterexample): the claim "calling the attribute-derived TaggedLog
is equivalent to `Log.log(message, *tags)`" fails for attribute names whose
components include `"trace"`: `log.trace("x")` passes stack-trace keywords to
the default handler, which `log.log("x", "trace")` does not, and the rendered
sink text differs. -/
theorem trace_tag_call_differs_counterexample :
    TaggedLog.call (⟨[], default_handler⟩ : Log)
        (getattrTags "trace") "x" ⟨"app.py", "10", "main", "None\n"⟩ ≠
      Log.log (⟨[], default_handler⟩ : Log) "x"
        (getattrTags "trace") {} ∧
    Handler.sinkText default_handler "x" ["trace"] sampleDate sampleTime
        ⟨"app.py", "10", "main"⟩ ≠
      Handler.sinkText default_handler "x" ["trace"] sampleDate sampleTime
        {} := by decide

/-- C6 (amended): attribute lookup of an undefined name yields a TaggedLog
whose tag tuple is the name split on underscore, preserving order, dropping
empty components; provided `"trace"` is not among those components, calling
it with a single message is equivalent to `Log.log(message, *tags)`; in
particular `log.general_info("started")` is `log("started", "general",
"info")`. -/
theorem getattr_call_equiv_log (l : Log) (name m : String) (si : StackInfo)
    (h : "trace" ∉ getattrTags name) :
    TaggedLog.call l (getattrTags name) m si =
      Log.log l m (getattrTags name) {} ∧
    getattrTags "general_info" = ["general", "info"] := by
  refine ⟨?_, by decide⟩
  rw [TaggedLog.call, if_neg]
  simpa using h

/-- C6 (witness): the amended equivalence at `general_info` / `"started"`. -/
theorem getattr_call_equiv_log_witness :
    "trace" ∉ getattrTags "general_info" ∧
    (TaggedLog.call (⟨[], default_handler⟩ : Log)
        (getattrTags "general_info") "started" ⟨"a.py", "1", "m", "None\n"⟩ =
      Log.log (⟨[], default_handler⟩ : Log) "started"
        (getattrTags "general_info") {} ∧
     getattrTags "general_info" = ["general", "info"]) :=
  ⟨by decide,
    getattr_call_equiv_log (⟨[], default_handler⟩ : Log)
      "general_info" "started" ⟨"a.py", "1", "m", "None\n"⟩ (by decide)⟩

end Chipper
